import Mathlib

set_option maxRecDepth 100000

/-!
Verification of the cmap (character-to-glyph mapping) core of a TrueType
font parsing library.

The Rust source (src/cmap.rs) is shallowly embedded over `List Nat` byte
buffers.  Machine integers are modelled as `Nat` with explicit `% 2^w`
where the Rust code wraps (release semantics; `x as u16` truncation is
`% 65536`, wrapping u32 addition is `% 4294967296`).

The stream / lazy-array layer (parser.rs) is not part of the given
sources; following the specification it is modelled so that every
sequential read, positional read and typed-array read is bounds checked
and a read past the end of the buffer makes the current subtable fail to
match.  The explicit Rust slice expression `&cmap_data[offset..]` in
cmap.rs panics when `offset > len`; this is modelled by the distinguished
result `CmapResult.fault`.
-/

/-- Byte at position `p`, 0 when past the end (reads are separately bounds
checked before the value is used). -/
def byteAt (d : List Nat) (p : Nat) : Nat := d.getD p 0

/-- Big-endian u16 at position `p`. -/
def u16At (d : List Nat) (p : Nat) : Nat := 256 * byteAt d p + byteAt d (p + 1)

/-- Big-endian u24 at position `p`. -/
def u24At (d : List Nat) (p : Nat) : Nat :=
  65536 * byteAt d p + 256 * byteAt d (p + 1) + byteAt d (p + 2)

/-- Big-endian u32 at position `p`. -/
def u32At (d : List Nat) (p : Nat) : Nat :=
  16777216 * byteAt d p + 65536 * byteAt d (p + 1) +
    256 * byteAt d (p + 2) + byteAt d (p + 3)

/-- The subtable format discriminant (`enum Format` in the source). -/
inductive Format where
  | ByteEncodingTable
  | HighByteMappingThroughTable
  | SegmentMappingToDeltaValues
  | TrimmedTableMapping
  | MixedCoverage
  | TrimmedArray
  | SegmentedCoverage
  | ManyToOneRangeMappings
  | UnicodeVariationSequences
deriving DecidableEq

/-- `parse_format` from the source: recognize a wire format code. -/
def parse_format (v : Nat) : Option Format :=
  if v = 0 then some Format.ByteEncodingTable
  else if v = 2 then some Format.HighByteMappingThroughTable
  else if v = 4 then some Format.SegmentMappingToDeltaValues
  else if v = 6 then some Format.TrimmedTableMapping
  else if v = 8 then some Format.MixedCoverage
  else if v = 10 then some Format.TrimmedArray
  else if v = 12 then some Format.SegmentedCoverage
  else if v = 13 then some Format.ManyToOneRangeMappings
  else if v = 14 then some Format.UnicodeVariationSequences
  else none

/-- Result of a public lookup.  `ok` is `Ok(GlyphId(_))`, `noGlyph` is
`Err(Error::NoGlyph)`, and `fault` models the Rust panic raised by the
slice expression `&cmap_data[offset..]` when `offset > len`. -/
inductive CmapResult where
  | ok (id : Nat)
  | noGlyph
  | fault
deriving DecidableEq

/-- Format 0 (`parse_byte_encoding_table`): the stream is positioned after
the format word, so `length` sits at offset 2 and the glyph byte array at
offset 6 of the subtable. -/
def parse_byte_encoding_table (d : List Nat) (c : Nat) : Option Nat :=
  if 4 ≤ d.length then
    let length := u16At d 2
    if c < length then
      if 6 + c + 1 ≤ d.length then some (byteAt d (6 + c)) else none
    else none
  else none

/-- Format 2 helper: `sub_header_keys.into_iter().map(|n| n / 8).max()`,
over the 256 keys that start at subtable offset 6. -/
def maxSubHeaderKey (d : List Nat) : Nat :=
  (List.range 256).foldl (fun m k => max m (u16At d (6 + 2 * k) / 8)) 0

/-- Format 2 (`parse_high_byte_mapping_through_table`).  The sub-header
array begins at offset 518 (= 6 + 512).  `first_code + entry_count` is a
plain Rust `u16` addition and therefore wraps at 2^16; the final
`(glyph as i32 + id_delta as i32) % 65536` cast to `u16` equals adding the
raw 16-bit delta modulo 2^16. -/
def parse_high_byte_mapping_through_table (d : List Nat) (c : Nat) : Option Nat :=
  if 65535 < c then none
  else
    let high := c / 256
    let low := c % 256
    if 518 ≤ d.length then
      let count := maxSubHeaderKey d + 1
      if 518 + 8 * count ≤ d.length then
        let i := if c < 255 then 0 else u16At d (6 + 2 * high) / 8
        let first := u16At d (518 + 8 * i)
        let entryCount := u16At d (518 + 8 * i + 2)
        let idDelta := u16At d (518 + 8 * i + 4)
        let idRangeOffset := u16At d (518 + 8 * i + 6)
        let rangeEnd := (first + entryCount) % 65536
        if low < first ∨ rangeEnd < low then none
        else
          let offset := 518 + 8 * (i + 1) - 2 + idRangeOffset + (low - first) * 2
          if offset + 2 ≤ d.length then
            let glyph := u16At d offset
            if glyph = 0 then none
            else some ((glyph + idDelta) % 65536)
          else none
      else none
    else none

/-- The custom binary-search loop of format 4, verbatim from the source.
`endOff`, `startOff`, `deltaOff` are the byte offsets of the `endCode`,
`startCode` and `idDelta` arrays; `irp` is `id_range_offset_pos`, which is
also where the `idRangeOffset` array starts.  All 16-bit arithmetic wraps
(`as u16` truncation and `wrapping_add`). -/
def format4LoopF (d : List Nat) (c endOff startOff deltaOff irp : Nat) :
    Nat → Nat → Nat → Option Nat
  | 0, _, _ => none
  | fuel + 1, s, e =>
    if s < e then
      let index := (s + e) / 2
      let endValue := u16At d (endOff + 2 * index)
      if c ≤ endValue then
        let startValue := u16At d (startOff + 2 * index)
        if c < startValue then
          format4LoopF d c endOff startOff deltaOff irp fuel s index
        else
          let idRangeOffset := u16At d (irp + 2 * index)
          let idDelta := u16At d (deltaOff + 2 * index)
          if idRangeOffset = 0 then some ((c + idDelta) % 65536)
          else
            let delta := ((c - startValue) * 2) % 65536
            let pos0 := (irp + index * 2) % 65536
            let pos := ((pos0 + delta) % 65536 + idRangeOffset) % 65536
            if pos + 2 ≤ d.length then
              let g := u16At d pos
              if g = 0 then none else some ((g + idDelta) % 65536)
            else none
      else format4LoopF d c endOff startOff deltaOff irp fuel (index + 1) e
    else none

/-- The `while end > start` loop with its fuel instantiated: `e - s`
bounds the number of iterations, since every iteration strictly shrinks
the search window. -/
def format4Loop (d : List Nat) (c endOff startOff deltaOff irp s e : Nat) : Option Nat :=
  format4LoopF d c endOff startOff deltaOff irp (e - s) s e

/-- The index at which `format4Loop` terminates with a candidate segment
(derived view of the same loop, used to state which segment is matched). -/
def format4IndexLoopF (d : List Nat) (c endOff startOff : Nat) :
    Nat → Nat → Nat → Option Nat
  | 0, _, _ => none
  | fuel + 1, s, e =>
    if s < e then
      let index := (s + e) / 2
      if c ≤ u16At d (endOff + 2 * index) then
        if c < u16At d (startOff + 2 * index) then
          format4IndexLoopF d c endOff startOff fuel s index
        else some index
      else format4IndexLoopF d c endOff startOff fuel (index + 1) e
    else none

/-- The same search with fuel `e - s`, the loop's iteration bound. -/
def format4IndexLoop (d : List Nat) (c endOff startOff s e : Nat) : Option Nat :=
  format4IndexLoopF d c endOff startOff (e - s) s e

/-- What `format4Loop` computes at the matched segment `j`. -/
def format4HitAux (d : List Nat) (c startOff deltaOff irp j : Nat) : Option Nat :=
  let idRangeOffset := u16At d (irp + 2 * j)
  let idDelta := u16At d (deltaOff + 2 * j)
  if idRangeOffset = 0 then some ((c + idDelta) % 65536)
  else
    let delta := ((c - u16At d (startOff + 2 * j)) * 2) % 65536
    let pos0 := (irp + j * 2) % 65536
    let pos := ((pos0 + delta) % 65536 + idRangeOffset) % 65536
    if pos + 2 ≤ d.length then
      let g := u16At d pos
      if g = 0 then none else some ((g + idDelta) % 65536)
    else none

/-- Format 4 (`parse_segment_mapping_to_delta_values`).  `segCountX2` is
read at offset 6; the four parallel arrays follow at offsets
14, 16 + 2·segCount, 16 + 4·segCount and 16 + 6·segCount. -/
def parse_segment_mapping_to_delta_values (d : List Nat) (c : Nat) : Option Nat :=
  if 65535 < c then none
  else if 8 ≤ d.length then
    let segCount := u16At d 6 / 2
    if 14 + 2 * segCount ≤ d.length then
      let startOff := 14 + 2 * segCount + 2
      if startOff + 2 * segCount ≤ d.length then
        let deltaOff := startOff + 2 * segCount
        if deltaOff + 2 * segCount ≤ d.length then
          let irp := deltaOff + 2 * segCount
          if irp + 2 * segCount ≤ d.length then
            format4Loop d c 14 startOff deltaOff irp 0 segCount
          else none
        else none
      else none
    else none
  else none

/-- Linear scan over the `SequentialMapGroup`s of formats 12/13.  Each
group is stored as the half-open range `start .. (end + 1)` where the
`+ 1` is an unchecked u32 addition (source `SequentialMapGroup::parse`),
so it wraps modulo 2^32. -/
def segCovLoop (d : List Nat) (c : Nat) (format : Format) : Nat → Nat → Option Nat
  | _, 0 => none
  | i, k + 1 =>
    let startC := u32At d (16 + 12 * i)
    let endPlus1 := (u32At d (16 + 12 * i + 4) + 1) % 4294967296
    let startGlyph := u32At d (16 + 12 * i + 8)
    if startC ≤ c ∧ c < endPlus1 then
      if format = Format.SegmentedCoverage then
        some ((((startGlyph + c) % 4294967296 +
          (4294967296 - startC % 4294967296)) % 4294967296) % 65536)
      else some (startGlyph % 65536)
    else segCovLoop d c format (i + 1) k

/-- Formats 12 and 13 (`parse_segmented_coverage`): `numGroups` is read at
offset 12, the groups (12 bytes each) start at offset 16. -/
def parse_segmented_coverage (d : List Nat) (c : Nat) (format : Format) : Option Nat :=
  if 16 ≤ d.length then
    let n := u32At d 12
    if 16 + 12 * n ≤ d.length then segCovLoop d c format 0 n else none
  else none

/-- The encoding-record walk of `glyph_index`: record `i` occupies bytes
`4 + 8*i ..`; its 32-bit subtable offset sits at `8 + 8*i`.  The slice
`&cmap_data[offset..]` faults when `offset > len`.  Unrecognized formats,
format 14, parse failures and no-match results continue with the next
record. -/
def glyphIndexLoop (cmap : List Nat) (c : Nat) : Nat → Nat → CmapResult
  | _, 0 => CmapResult.noGlyph
  | i, k + 1 =>
    if 12 + 8 * i ≤ cmap.length then
      let o := u32At cmap (8 + 8 * i)
      if cmap.length < o then CmapResult.fault
      else
        let sub := cmap.drop o
        if 2 ≤ sub.length then
          match parse_format (u16At sub 0) with
          | none => glyphIndexLoop cmap c (i + 1) k
          | some f =>
            match (match f with
                   | Format.ByteEncodingTable => parse_byte_encoding_table sub c
                   | Format.HighByteMappingThroughTable =>
                       parse_high_byte_mapping_through_table sub c
                   | Format.SegmentMappingToDeltaValues =>
                       parse_segment_mapping_to_delta_values sub c
                   | Format.SegmentedCoverage => parse_segmented_coverage sub c f
                   | Format.ManyToOneRangeMappings => parse_segmented_coverage sub c f
                   | _ => none) with
            | some g => CmapResult.ok g
            | none => glyphIndexLoop cmap c (i + 1) k
        else glyphIndexLoop cmap c (i + 1) k
    else glyphIndexLoop cmap c (i + 1) k

/-- `Font::glyph_index`: read `numTables` at offset 2 and walk the
encoding records in file order. -/
def glyph_index (cmap : List Nat) (c : Nat) : CmapResult :=
  if 4 ≤ cmap.length then glyphIndexLoop cmap c 0 (u16At cmap 2)
  else CmapResult.noGlyph

/-- `UnicodeRangeRecord` (format 14 default-UVS table). -/
structure UnicodeRangeRecord where
  start_unicode_value : Nat
  additional_count : Nat

/-- `UnicodeRangeRecord::contains`, verbatim from the source:
`self.start_unicode_value >= (c as u32) && (c as u32) < end` with
`end = start_unicode_value + additional_count`. -/
def UnicodeRangeRecord.contains (r : UnicodeRangeRecord) (c : Nat) : Bool :=
  decide (c ≤ r.start_unicode_value) &&
    decide (c < r.start_unicode_value + r.additional_count)

/-- Classic binary search over the `VariationSelectorRecord` array
(11-byte records starting at subtable offset 10, u24 selector key);
returns the matching record index. -/
def vsRecSearchF (d : List Nat) (v : Nat) : Nat → Nat → Nat → Option Nat
  | 0, _, _ => none
  | fuel + 1, s, e =>
    if s < e then
      let mid := (s + e) / 2
      let key := u24At d (10 + 11 * mid)
      if key < v then vsRecSearchF d v fuel (mid + 1) e
      else if v < key then vsRecSearchF d v fuel s mid
      else some mid
    else none

/-- The search with fuel `e - s`, the loop's iteration bound. -/
def vsRecSearch (d : List Nat) (v s e : Nat) : Option Nat :=
  vsRecSearchF d v (e - s) s e

/-- Scan of the default-UVS `UnicodeRangeRecord`s (4-byte records starting
at offset 4 of the default-UVS table). -/
def rangesContain (t : List Nat) (c : Nat) : Nat → Nat → Bool
  | _, 0 => false
  | i, k + 1 =>
    let r : UnicodeRangeRecord :=
      { start_unicode_value := u24At t (4 + 4 * i)
        additional_count := byteAt t (4 + 4 * i + 3) }
    if r.contains c then true else rangesContain t c (i + 1) k

/-- Whether some range of the default-UVS table at `t` contains `c`
(per the source's `contains`); reads are bounds checked per the stream
model. -/
def defaultUVSContains (t : List Nat) (c : Nat) : Bool :=
  if 4 ≤ t.length then
    let cnt := u32At t 0
    if 4 + 4 * cnt ≤ t.length then rangesContain t c 0 cnt else false
  else false

/-- Classic binary search over the non-default-UVS `UVSMappingRecord`s
(5-byte records starting at offset 4, u24 key) returning the mapped
glyph. -/
def uvsMappingSearchF (t : List Nat) (cp : Nat) : Nat → Nat → Nat → Option Nat
  | 0, _, _ => none
  | fuel + 1, s, e =>
    if s < e then
      let mid := (s + e) / 2
      let key := u24At t (4 + 5 * mid)
      if key < cp then uvsMappingSearchF t cp fuel (mid + 1) e
      else if cp < key then uvsMappingSearchF t cp fuel s mid
      else some (u16At t (4 + 5 * mid + 3))
    else none

/-- The search with fuel `e - s`, the loop's iteration bound. -/
def uvsMappingSearch (t : List Nat) (cp s e : Nat) : Option Nat :=
  uvsMappingSearchF t cp (e - s) s e

/-- The non-default-UVS step of `parse_unicode_variation_sequences`:
a zero offset means the table is absent; `&data[offset..]` faults past
the end. -/
def nonDefaultStep (data : List Nat) (c off : Nat) : CmapResult :=
  if off = 0 then CmapResult.noGlyph
  else if data.length < off then CmapResult.fault
  else
    let t := data.drop off
    if 4 ≤ t.length then
      let cnt := u32At t 0
      if 4 + 5 * cnt ≤ t.length then
        match uvsMappingSearch t c 0 cnt with
        | some g => CmapResult.ok g
        | none => CmapResult.noGlyph
      else CmapResult.noGlyph
    else CmapResult.noGlyph

/-- `Font::parse_unicode_variation_sequences`: `numVarSelectorRecords` is
read at offset 6, the 11-byte records start at offset 10; the matched
record's default-UVS offset sits 3 bytes and its non-default-UVS offset 7
bytes into the record.  A default-UVS hit tail-calls `glyph_index`. -/
def parse_unicode_variation_sequences (cmap data : List Nat) (c v : Nat) : CmapResult :=
  if 10 ≤ data.length then
    let n := u32At data 6
    if 10 + 11 * n ≤ data.length then
      match vsRecSearch data v 0 n with
      | none => CmapResult.noGlyph
      | some idx =>
        let defaultOff := u32At data (10 + 11 * idx + 3)
        let nonDefaultOff := u32At data (10 + 11 * idx + 7)
        if defaultOff = 0 then nonDefaultStep data c nonDefaultOff
        else if data.length < defaultOff then CmapResult.fault
        else if defaultUVSContains (data.drop defaultOff) c then glyph_index cmap c
        else nonDefaultStep data c nonDefaultOff
    else CmapResult.noGlyph
  else CmapResult.noGlyph

/-- The encoding-record walk of `glyph_variation_index`: only format-14
subtables are considered; the first one found decides the result. -/
def glyphVariationLoop (cmap : List Nat) (c v : Nat) : Nat → Nat → CmapResult
  | _, 0 => CmapResult.noGlyph
  | i, k + 1 =>
    if 12 + 8 * i ≤ cmap.length then
      let o := u32At cmap (8 + 8 * i)
      if cmap.length < o then CmapResult.fault
      else
        let sub := cmap.drop o
        if 2 ≤ sub.length then
          match parse_format (u16At sub 0) with
          | some Format.UnicodeVariationSequences =>
              parse_unicode_variation_sequences cmap sub c v
          | _ => glyphVariationLoop cmap c v (i + 1) k
        else glyphVariationLoop cmap c v (i + 1) k
    else glyphVariationLoop cmap c v (i + 1) k

/-- `Font::glyph_variation_index`. -/
def glyph_variation_index (cmap : List Nat) (c v : Nat) : CmapResult :=
  if 4 ≤ cmap.length then glyphVariationLoop cmap c v 0 (u16At cmap 2)
  else CmapResult.noGlyph

/-- Concrete cmap for C1: a format-14 subtable (selector 0xFE00, default
range U+0030..U+0039) followed by a format-0 subtable mapping U+0035 to
glyph 42. -/
def c1buf : List Nat :=
  [0,0, 0,2,
   0,0, 0,0, 0,0,0,20,
   0,0, 0,0, 0,0,0,49] ++
  ([0,14] ++ [0,0,0,0] ++ [0,0,0,1] ++
   [0,254,0] ++ [0,0,0,21] ++ [0,0,0,0] ++
   [0,0,0,1] ++ [0,0,48,9]) ++
  ([0,0] ++ [0,255] ++ [0,0] ++ List.replicate 53 0 ++ [42])

/-- Concrete cmap for C2: one format-0 subtable whose glyph byte for
codepoint 0 is 0. -/
def c2buf : List Nat :=
  [0,0, 0,1, 0,0, 0,0, 0,0,0,12, 0,0, 1,0, 0,0, 0]

/-- Concrete cmap for C3: one encoding record whose 32-bit subtable offset
(256) lies past the end of the 12-byte buffer. -/
def c3buf : List Nat :=
  [0,0, 0,1, 0,0, 0,0, 0,0,1,0]

/-- Format-4 subtable for the C4 counterexample: two overlapping segments
(0..100, delta 5) and (0..200, delta 7), endCodes sorted ascending, all
idRangeOffsets zero. -/
def c4buf : List Nat :=
  [0,4, 0,32, 0,0, 0,4, 0,0, 0,0, 0,0,
   0,100, 0,200,
   0,0,
   0,0, 0,0,
   0,5, 0,7,
   0,0, 0,0]

/-- Format-4 subtable for the C4 witness: disjoint sorted segments
(0..100, delta 5) and (150..200, delta 7), all idRangeOffsets zero. -/
def c4wbuf : List Nat :=
  [0,4, 0,32, 0,0, 0,4, 0,0, 0,0, 0,0,
   0,100, 0,200,
   0,0,
   0,0, 0,150,
   0,5, 0,7,
   0,0, 0,0]

/-- Format-4 subtable for the C5 witness: one segment (0x40..0x50,
delta 3) with idRangeOffset 2, glyph-array u16 9 at the computed
position 26. -/
def c5wbuf : List Nat :=
  [0,4, 0,28, 0,0, 0,2, 0,0, 0,0, 0,0,
   0,80,
   0,0,
   0,64,
   0,3,
   0,2,
   0,0, 0,9]

/-- Format-2 subtable for the C6 counterexample: subHeaderKeys[1] = 8,
sub-header 1 has first_code 1 and entry_count 0xFFFF (whose 16-bit sum
wraps to 0), and the glyph-index array holds 42 at position 540. -/
def c6buf : List Nat :=
  [0,2, 0,0, 0,0] ++ [0,0, 0,8] ++ List.replicate 508 0 ++
  [0,0, 0,0, 0,0, 0,0] ++
  [0,1, 255,255, 0,0, 0,0] ++
  List.replicate 6 0 ++ [0,42]

/-- Format-2 subtable for the C6 witness: all keys 0, sub-header 0 is
(first_code 0x40, entry_count 2, id_delta 1, id_range_offset 0), glyph
10 at position 526. -/
def c6wbuf : List Nat :=
  [0,2, 0,0, 0,0] ++ List.replicate 512 0 ++
  [0,64, 0,2, 0,1, 0,0] ++ [0,10]

/-- Format-12 subtable for the C7 counterexample: a single group with
startCharCode 0, endCharCode 0xFFFFFFFF, startGlyphId 7. -/
def c7buf : List Nat :=
  [0,12, 0,0, 0,0,0,28, 0,0,0,0, 0,0,0,1,
   0,0,0,0, 255,255,255,255, 0,0,0,7]

/-- Format-12 subtable for the C7 witness: one group
(0x1F600..0x1F64F, startGlyphId 200). -/
def c7wbuf : List Nat :=
  [0,12, 0,0, 0,0,0,28, 0,0,0,0, 0,0,0,1,
   0,1,246,0, 0,1,246,79, 0,0,0,200]

/-- cmap for the C8 witness, part (a): a single non-format-14 subtable. -/
def c8abuf : List Nat :=
  [0,0, 0,1, 0,0, 0,0, 0,0,0,12, 0,4]

/-- cmap for the C8 witness, part (b): a single format-14 subtable. -/
def c8bbuf : List Nat :=
  [0,0, 0,1, 0,0, 0,0, 0,0,0,12, 0,14]

/-- Format-14 subtable for the C8 witness, part (c): zero
variation-selector records. -/
def c8cbuf : List Nat :=
  [0,14, 0,0,0,0, 0,0,0,0]

/-- cmap for the C9 witness: a single format-0 subtable. -/
def c9wbuf : List Nat :=
  [0,0, 0,1, 0,0, 0,0, 0,0,0,12, 0,0, 0,255, 0,0]

/-- Format-12 subtable for the C10 witness: a single group with
startCharCode 3, endCharCode 0xFFFFFFFF, startGlyphId 9. -/
def c10wbuf : List Nat :=
  [0,12, 0,0, 0,0,0,28, 0,0,0,0, 0,0,0,1,
   0,0,0,3, 255,255,255,255, 0,0,0,9]

theorem byteAt_drop (d : List Nat) (o p : Nat) :
    byteAt (d.drop o) p = byteAt d (o + p) := by
  simp [byteAt, List.getD, List.getElem?_drop]

theorem u16At_drop (d : List Nat) (o p : Nat) :
    u16At (d.drop o) p = u16At d (o + p) := by
  simp [u16At, byteAt_drop, ← Nat.add_assoc]

theorem u24At_drop (d : List Nat) (o p : Nat) :
    u24At (d.drop o) p = u24At d (o + p) := by
  simp [u24At, byteAt_drop, ← Nat.add_assoc]

theorem u32At_drop (d : List Nat) (o p : Nat) :
    u32At (d.drop o) p = u32At d (o + p) := by
  simp [u32At, byteAt_drop, ← Nat.add_assoc]

theorem byteAt_lt (d : List Nat) (hb : ∀ b ∈ d, b < 256) (p : Nat) :
    byteAt d p < 256 := by
  unfold byteAt List.getD
  rcases h : d.get? p with _ | b
  · simp
  · simpa using hb b (List.get?_mem h)

theorem u16At_lt (d : List Nat) (hb : ∀ b ∈ d, b < 256) (p : Nat) :
    u16At d p < 65536 := by
  have h1 := byteAt_lt d hb p
  have h2 := byteAt_lt d hb (p + 1)
  unfold u16At; omega

theorem u32At_lt (d : List Nat) (hb : ∀ b ∈ d, b < 256) (p : Nat) :
    u32At d p < 4294967296 := by
  have h1 := byteAt_lt d hb p
  have h2 := byteAt_lt d hb (p + 1)
  have h3 := byteAt_lt d hb (p + 2)
  have h4 := byteAt_lt d hb (p + 3)
  unfold u32At; omega

theorem format4IndexLoopF_none (d : List Nat) (c endOff startOff : Nat) :
    ∀ fuel s e, e - s ≤ fuel →
      (∀ k, s ≤ k → k < e →
        u16At d (endOff + 2 * k) < c ∨ c < u16At d (startOff + 2 * k)) →
      format4IndexLoopF d c endOff startOff fuel s e = none := by
  intro fuel
  induction fuel with
  | zero => intro s e hse hcond; rfl
  | succ fuel ih =>
    intro s e hse hcond
    simp only [format4IndexLoopF]
    by_cases h : s < e
    · rw [if_pos h]
      have hmid : s ≤ (s + e) / 2 ∧ (s + e) / 2 < e := by omega
      rcases hcond _ hmid.1 hmid.2 with hlt | hgt
      · rw [if_neg (by omega)]
        exact ih _ _ (by omega) (fun k hk1 hk2 => hcond k (by omega) hk2)
      · by_cases h1 : c ≤ u16At d (endOff + 2 * ((s + e) / 2))
        · rw [if_pos h1, if_pos hgt]
          exact ih _ _ (by omega) (fun k hk1 hk2 => hcond k hk1 (by omega))
        · rw [if_neg h1]
          exact ih _ _ (by omega) (fun k hk1 hk2 => hcond k (by omega) hk2)
    · rw [if_neg h]

theorem format4IndexLoopF_finds (d : List Nat) (c endOff startOff j : Nat)
    (hjend : c ≤ u16At d (endOff + 2 * j))
    (hjstart : u16At d (startOff + 2 * j) ≤ c) :
    ∀ fuel s e, e - s ≤ fuel → s ≤ j → j < e →
      (∀ k, s ≤ k → k < j → u16At d (endOff + 2 * k) < c) →
      (∀ k, j < k → k < e →
        c ≤ u16At d (endOff + 2 * k) ∧ c < u16At d (startOff + 2 * k)) →
      format4IndexLoopF d c endOff startOff fuel s e = some j := by
  intro fuel
  induction fuel with
  | zero => intro s e hse hsj hje _ _; omega
  | succ fuel ih =>
    intro s e hse hsj hje hlow hhigh
    simp only [format4IndexLoopF]
    rw [if_pos (by omega : s < e)]
    have hmid : s ≤ (s + e) / 2 ∧ (s + e) / 2 < e := by omega
    rcases Nat.lt_trichotomy ((s + e) / 2) j with hmj | hmj | hmj
    · have hend := hlow _ hmid.1 hmj
      rw [if_neg (by omega)]
      exact ih ((s + e) / 2 + 1) e (by omega) (by omega) hje
        (fun k hk1 hk2 => hlow k (by omega) hk2) hhigh
    · rw [← hmj] at hjend hjstart
      rw [if_pos hjend, if_neg (by omega)]
      exact congrArg some hmj
    · have hc := hhigh _ hmj hmid.2
      rw [if_pos hc.1, if_pos hc.2]
      exact ih s ((s + e) / 2) (by omega) hsj hmj hlow
        (fun k hk1 hk2 => hhigh k hk1 (by omega))

theorem format4LoopF_eq (d : List Nat) (c endOff startOff deltaOff irp : Nat) :
    ∀ fuel s e,
      format4LoopF d c endOff startOff deltaOff irp fuel s e =
        (match format4IndexLoopF d c endOff startOff fuel s e with
         | some j => format4HitAux d c startOff deltaOff irp j
         | none => none) := by
  intro fuel
  induction fuel with
  | zero => intro s e; rfl
  | succ fuel ih =>
    intro s e
    simp only [format4LoopF, format4IndexLoopF]
    by_cases h : s < e
    · simp only [if_pos h]
      by_cases h1 : c ≤ u16At d (endOff + 2 * ((s + e) / 2))
      · simp only [if_pos h1]
        by_cases h2 : c < u16At d (startOff + 2 * ((s + e) / 2))
        · simp only [if_pos h2]
          exact ih s ((s + e) / 2)
        · simp only [if_neg h2]
          rfl
      · simp only [if_neg h1]
        exact ih ((s + e) / 2 + 1) e
    · simp only [if_neg h]

theorem parse4_eq_loop (d : List Nat) (c : Nat) (hc : c ≤ 65535)
    (hL : 16 + 8 * (u16At d 6 / 2) ≤ d.length) :
    parse_segment_mapping_to_delta_values d c =
      format4Loop d c 14 (16 + 2 * (u16At d 6 / 2)) (16 + 4 * (u16At d 6 / 2))
        (16 + 6 * (u16At d 6 / 2)) 0 (u16At d 6 / 2) := by
  unfold parse_segment_mapping_to_delta_values
  rw [if_neg (by omega : ¬ 65535 < c)]
  rw [if_pos (show 8 ≤ d.length by omega)]
  simp only
  rw [if_pos (by omega), if_pos (by omega), if_pos (by omega), if_pos (by omega)]
  congr 1 <;> omega

/-- C4 (amended): for a format-4 subtable whose segments are sorted
ascending by endCode AND non-overlapping (every earlier endCode is below
every later startCode), with all idRangeOffsets zero, a codepoint
c ≤ 0xFFFF whose first segment with endCode ≥ c is `j`: if
startCode[j] ≤ c the parser returns (c + idDelta[j]) mod 65536, and if
startCode[j] > c it returns no match.  (Without the non-overlap
hypothesis the claim is false, see the counterexample.) -/
theorem c4_format4_zero_offsets (d : List Nat) (c j : Nat)
    (hc : c ≤ 65535)
    (hL : 16 + 8 * (u16At d 6 / 2) ≤ d.length)
    (hsort : ∀ b, b < u16At d 6 / 2 → ∀ a, a < b →
      u16At d (14 + 2 * a) ≤ u16At d (14 + 2 * b))
    (hsep : ∀ b, b < u16At d 6 / 2 → ∀ a, a < b →
      u16At d (14 + 2 * a) < u16At d (16 + 2 * (u16At d 6 / 2) + 2 * b))
    (hiro : ∀ i, i < u16At d 6 / 2 → u16At d (16 + 6 * (u16At d 6 / 2) + 2 * i) = 0)
    (hj : j < u16At d 6 / 2)
    (hjend : c ≤ u16At d (14 + 2 * j))
    (hfirst : ∀ k, k < j → u16At d (14 + 2 * k) < c) :
    (u16At d (16 + 2 * (u16At d 6 / 2) + 2 * j) ≤ c →
      parse_segment_mapping_to_delta_values d c =
        some ((c + u16At d (16 + 4 * (u16At d 6 / 2) + 2 * j)) % 65536)) ∧
    (c < u16At d (16 + 2 * (u16At d 6 / 2) + 2 * j) →
      parse_segment_mapping_to_delta_values d c = none) := by
  rw [parse4_eq_loop d c hc hL]
  unfold format4Loop
  rw [format4LoopF_eq]
  constructor
  · intro hstart
    rw [format4IndexLoopF_finds d c 14 (16 + 2 * (u16At d 6 / 2)) j hjend hstart
      (u16At d 6 / 2 - 0) 0 (u16At d 6 / 2) (by omega) (by omega) hj
      (fun k _ hk2 => hfirst k hk2)
      (fun k hk1 hk2 => ⟨le_trans hjend (hsort k hk2 j hk1),
        lt_of_le_of_lt hjend (hsep k hk2 j hk1)⟩)]
    show format4HitAux _ _ _ _ _ j = _
    simp only [format4HitAux]
    rw [if_pos (hiro j hj)]
  · intro hstart
    have hnone := format4IndexLoopF_none d c 14 (16 + 2 * (u16At d 6 / 2))
      (u16At d 6 / 2 - 0) 0 (u16At d 6 / 2) (by omega) ?cond
    case cond =>
      intro k _ hk
      rcases Nat.lt_trichotomy k j with h1 | h1 | h1
      · exact Or.inl (hfirst k h1)
      · subst h1; exact Or.inr hstart
      · exact Or.inr (lt_of_le_of_lt hjend (hsep k hk j h1))
    rw [hnone]

/-- C4 counterexample: a format-4 subtable with segments (0..100, delta 5)
and (0..200, delta 7), endCodes sorted ascending and all idRangeOffsets
zero, queried at codepoint 50.  The first segment with endCode ≥ 50 is
segment 0 (endCode 100, startCode 0 ≤ 50, delta 5), so the claim demands
(50 + 5) mod 65536 = 55, but the parser returns 57: its binary search
probes index 1 first and segment 1 also covers 50. -/
theorem c4_counterexample :
    parse_segment_mapping_to_delta_values c4buf 50 = some 57 ∧
    u16At c4buf 6 / 2 = 2 ∧
    u16At c4buf 14 = 100 ∧ u16At c4buf 16 = 200 ∧
    u16At c4buf 20 = 0 ∧ u16At c4buf 22 = 0 ∧
    u16At c4buf 24 = 5 ∧ u16At c4buf 26 = 7 ∧
    u16At c4buf 28 = 0 ∧ u16At c4buf 30 = 0 ∧
    (50 + 5) % 65536 = 55 := by decide

/-- C4 witness: sorted, non-overlapping segments (0..100, delta 5) and
(150..200, delta 7); codepoint 50 maps through segment 0 to 55. -/
theorem c4_witness : parse_segment_mapping_to_delta_values c4wbuf 50 = some 55 := by
  have h := (c4_format4_zero_offsets c4wbuf 50 0 (by decide) (by decide)
    (by decide) (by decide) (by decide) (by decide) (by decide)
    (by decide)).1 (by decide)
  exact h.trans (by decide)

/-- C5: for a format-4 subtable and codepoint c ≤ 0xFFFF whose matched
segment `j` (the index at which the source's binary search terminates)
has idRangeOffset[j] ≠ 0, the parser reads a u16 at
(id_range_offset_pos + j·2) + idRangeOffset[j] + (c − startCode[j])·2
wrapped at 16 bits; zero means no match, otherwise the result is that u16
plus idDelta[j] under wrapping 16-bit addition. -/
theorem c5_format4_range_offset_path (d : List Nat) (c j : Nat)
    (hc : c ≤ 65535)
    (hL : 16 + 8 * (u16At d 6 / 2) ≤ d.length)
    (hfound : format4IndexLoop d c 14 (16 + 2 * (u16At d 6 / 2)) 0 (u16At d 6 / 2) = some j)
    (hiro : u16At d (16 + 6 * (u16At d 6 / 2) + 2 * j) ≠ 0)
    (hpos : (16 + 6 * (u16At d 6 / 2) + j * 2
        + u16At d (16 + 6 * (u16At d 6 / 2) + 2 * j)
        + (c - u16At d (16 + 2 * (u16At d 6 / 2) + 2 * j)) * 2) % 65536 + 2 ≤ d.length) :
    parse_segment_mapping_to_delta_values d c =
      (if u16At d ((16 + 6 * (u16At d 6 / 2) + j * 2
            + u16At d (16 + 6 * (u16At d 6 / 2) + 2 * j)
            + (c - u16At d (16 + 2 * (u16At d 6 / 2) + 2 * j)) * 2) % 65536) = 0
       then none
       else some ((u16At d ((16 + 6 * (u16At d 6 / 2) + j * 2
            + u16At d (16 + 6 * (u16At d 6 / 2) + 2 * j)
            + (c - u16At d (16 + 2 * (u16At d 6 / 2) + 2 * j)) * 2) % 65536)
          + u16At d (16 + 4 * (u16At d 6 / 2) + 2 * j)) % 65536)) := by
  rw [parse4_eq_loop d c hc hL]
  unfold format4Loop
  unfold format4IndexLoop at hfound
  rw [format4LoopF_eq, hfound]
  show format4HitAux _ _ _ _ _ j = _
  simp only [format4HitAux]
  rw [if_neg hiro]
  have hpe : (((16 + 6 * (u16At d 6 / 2) + j * 2) % 65536 +
      ((c - u16At d (16 + 2 * (u16At d 6 / 2) + 2 * j)) * 2) % 65536) % 65536 +
      u16At d (16 + 6 * (u16At d 6 / 2) + 2 * j)) % 65536
      = (16 + 6 * (u16At d 6 / 2) + j * 2
        + u16At d (16 + 6 * (u16At d 6 / 2) + 2 * j)
        + (c - u16At d (16 + 2 * (u16At d 6 / 2) + 2 * j)) * 2) % 65536 := by
    omega
  rw [hpe, if_pos hpos]

/-- C5 witness: one segment (0x40..0x50, delta 3, idRangeOffset 2); the
computed glyph-array position for codepoint 0x41 is 26, holding 9, so the
result is (9 + 3) mod 65536 = 12. -/
theorem c5_witness : parse_segment_mapping_to_delta_values c5wbuf 65 = some 12 := by
  have h := c5_format4_range_offset_path c5wbuf 65 0 (by decide) (by decide)
    (by decide) (by decide) (by decide)
  exact h.trans (by decide)

/-- C6 (amended): for a format-2 subtable and codepoint c ≤ 0xFFFF with
selected sub-header `i` (0 when c < 0xFF, else subHeaderKeys[c >> 8] / 8):
the parser returns no match when low_byte < first_code or low_byte
exceeds (first_code + entry_count) mod 65536 — the sum is a wrapping
16-bit addition, not the mathematical sum the claim states; otherwise it
reads a u16 at sub_headers_offset + 8·(i+1) − 2 + id_range_offset +
2·(low_byte − first_code), returns no match if that u16 is zero, and else
returns (u16 + id_delta) mod 65536. -/
theorem c6_format2_subheader_path (d : List Nat) (c i : Nat)
    (hc : c ≤ 65535)
    (h1 : 518 ≤ d.length)
    (h2 : 518 + 8 * (maxSubHeaderKey d + 1) ≤ d.length)
    (hi : (if c < 255 then 0 else u16At d (6 + 2 * (c / 256)) / 8) = i) :
    (c % 256 < u16At d (518 + 8 * i) ∨
       (u16At d (518 + 8 * i) + u16At d (518 + 8 * i + 2)) % 65536 < c % 256 →
      parse_high_byte_mapping_through_table d c = none) ∧
    (u16At d (518 + 8 * i) ≤ c % 256 →
     c % 256 ≤ (u16At d (518 + 8 * i) + u16At d (518 + 8 * i + 2)) % 65536 →
     518 + 8 * (i + 1) - 2 + u16At d (518 + 8 * i + 6)
       + (c % 256 - u16At d (518 + 8 * i)) * 2 + 2 ≤ d.length →
      parse_high_byte_mapping_through_table d c =
        (if u16At d (518 + 8 * (i + 1) - 2 + u16At d (518 + 8 * i + 6)
             + (c % 256 - u16At d (518 + 8 * i)) * 2) = 0
         then none
         else some ((u16At d (518 + 8 * (i + 1) - 2 + u16At d (518 + 8 * i + 6)
             + (c % 256 - u16At d (518 + 8 * i)) * 2)
           + u16At d (518 + 8 * i + 4)) % 65536))) := by
  simp only [parse_high_byte_mapping_through_table]
  rw [if_neg (by omega : ¬ 65535 < c), if_pos h1, if_pos h2, hi]
  constructor
  · intro hcond
    rw [if_pos hcond]
  · intro ha hb hlen
    rw [if_neg (by omega), if_pos hlen]

/-- C6 counterexample: subHeaderKeys[1] = 8 selects sub-header 1 with
first_code 1 and entry_count 0xFFFF; for codepoint 0x0105 (low byte 5)
the claim's mathematical range test 1 ≤ 5 ≤ 1 + 65535 passes and the
glyph-index array holds 42 ≠ 0 at the computed offset 540 (with id_delta
0), so the claim demands some 42 — but first_code + entry_count wraps to
0 in 16-bit arithmetic and the parser returns none. -/
theorem c6_counterexample :
    parse_high_byte_mapping_through_table c6buf 261 = none ∧
    u16At c6buf (6 + 2 * (261 / 256)) / 8 = 1 ∧
    u16At c6buf 526 = 1 ∧ u16At c6buf 528 = 65535 ∧
    1 ≤ 261 % 256 ∧ 261 % 256 ≤ 1 + 65535 ∧
    518 + 8 * (1 + 1) - 2 + 0 + (261 % 256 - 1) * 2 = 540 ∧
    u16At c6buf 530 = 0 ∧ u16At c6buf 540 = 42 := by decide

/-- C6 witness: sub-header 0 (first_code 0x40, entry_count 2, id_delta 1),
codepoint 0x41: the u16 at offset 526 is 10, so the result is
(10 + 1) mod 65536 = 11. -/
theorem c6_witness : parse_high_byte_mapping_through_table c6wbuf 65 = some 11 := by
  have h := (c6_format2_subheader_path c6wbuf 65 0 (by decide) (by decide)
    (by decide) (by decide)).2 (by decide) (by decide) (by decide)
  exact h.trans (by decide)

theorem segCovLoop_finds (d : List Nat) (c : Nat) (fmt : Format) (j : Nat)
    (hcont : u32At d (16 + 12 * j) ≤ c ∧
      c < (u32At d (16 + 12 * j + 4) + 1) % 4294967296) :
    ∀ k i, i ≤ j → j < i + k →
      (∀ m, i ≤ m → m < j → ¬(u32At d (16 + 12 * m) ≤ c ∧
        c < (u32At d (16 + 12 * m + 4) + 1) % 4294967296)) →
      segCovLoop d c fmt i k =
        (if fmt = Format.SegmentedCoverage then
          some ((((u32At d (16 + 12 * j + 8) + c) % 4294967296 +
            (4294967296 - u32At d (16 + 12 * j) % 4294967296)) % 4294967296) % 65536)
         else some (u32At d (16 + 12 * j + 8) % 65536)) := by
  intro k
  induction k with
  | zero => intro i h1 h2 _; omega
  | succ k ih =>
    intro i h1 h2 hskip
    simp only [segCovLoop]
    rcases Nat.lt_or_ge i j with hij | hij
    · rw [if_neg (hskip i le_rfl hij)]
      exact ih (i + 1) (by omega) (by omega) (fun m hm1 hm2 => hskip m (by omega) hm2)
    · have hji : i = j := by omega
      subst hji
      rw [if_pos hcont]

theorem segCovLoop_none (d : List Nat) (c : Nat) (fmt : Format) :
    ∀ k i,
      (∀ m, i ≤ m → m < i + k → ¬(u32At d (16 + 12 * m) ≤ c ∧
        c < (u32At d (16 + 12 * m + 4) + 1) % 4294967296)) →
      segCovLoop d c fmt i k = none := by
  intro k
  induction k with
  | zero => intro i _; rfl
  | succ k ih =>
    intro i hskip
    simp only [segCovLoop]
    rw [if_neg (hskip i le_rfl (by omega))]
    exact ih (i + 1) (fun m hm1 hm2 => hskip m (by omega) (by omega))

/-- C7 (amended): for a format-12/13 subtable made of bytes, (1) for a
codepoint c contained in group `j` — the first group that wire-contains
c, where groups whose endCharCode is 0xFFFFFFFF never match because the
stored upper bound endCharCode + 1 wraps to 0 — format 12 returns
startGlyphId + (c − startCharCode) truncated to u16 and format 13
returns startGlyphId truncated to u16; and (2) when no group matches
(each group either has endCharCode = 0xFFFFFFFF or does not wire-contain
c), the parser returns no match for either format. -/
theorem c7_format12_13_group_match (d : List Nat) (c j : Nat)
    (hbytes : ∀ b ∈ d, b < 256)
    (h16 : 16 ≤ d.length)
    (hN : 16 + 12 * u32At d 12 ≤ d.length) :
    (j < u32At d 12 →
     u32At d (16 + 12 * j) ≤ c →
     c ≤ u32At d (16 + 12 * j + 4) →
     u32At d (16 + 12 * j + 4) < 4294967295 →
     (∀ m, m < j → u32At d (16 + 12 * m + 4) = 4294967295 ∨
       ¬(u32At d (16 + 12 * m) ≤ c ∧ c ≤ u32At d (16 + 12 * m + 4))) →
      parse_segmented_coverage d c Format.SegmentedCoverage =
        some ((u32At d (16 + 12 * j + 8) + (c - u32At d (16 + 12 * j))) % 65536) ∧
      parse_segmented_coverage d c Format.ManyToOneRangeMappings =
        some (u32At d (16 + 12 * j + 8) % 65536)) ∧
    ((∀ m, m < u32At d 12 → u32At d (16 + 12 * m + 4) = 4294967295 ∨
       ¬(u32At d (16 + 12 * m) ≤ c ∧ c ≤ u32At d (16 + 12 * m + 4))) →
     ∀ fmt, parse_segmented_coverage d c fmt = none) := by
  have hu : ∀ p, u32At d p < 4294967296 := u32At_lt d hbytes
  have hskip : ∀ m, (u32At d (16 + 12 * m + 4) = 4294967295 ∨
      ¬(u32At d (16 + 12 * m) ≤ c ∧ c ≤ u32At d (16 + 12 * m + 4))) →
      ¬(u32At d (16 + 12 * m) ≤ c ∧
        c < (u32At d (16 + 12 * m + 4) + 1) % 4294967296) := by
    intro m hm
    have h5 := hu (16 + 12 * m + 4)
    rcases hm with h | h
    · rw [h]
      intro hx
      omega
    · intro hx
      exact h ⟨hx.1, by omega⟩
  constructor
  · intro hj hstart hend hendlt hfirst
    have hcont : u32At d (16 + 12 * j) ≤ c ∧
        c < (u32At d (16 + 12 * j + 4) + 1) % 4294967296 := by
      refine ⟨hstart, ?_⟩
      have := hu (16 + 12 * j + 4)
      omega
    have hskip' : ∀ m, 0 ≤ m → m < j → ¬(u32At d (16 + 12 * m) ≤ c ∧
        c < (u32At d (16 + 12 * m + 4) + 1) % 4294967296) :=
      fun m _ hm => hskip m (hfirst m hm)
    constructor
    · unfold parse_segmented_coverage
      rw [if_pos h16, if_pos hN,
        segCovLoop_finds d c Format.SegmentedCoverage j hcont (u32At d 12) 0
          (by omega) (by omega) hskip',
        if_pos rfl]
      congr 1
      have h1 := hu (16 + 12 * j + 8)
      have h2 := hu (16 + 12 * j)
      omega
    · unfold parse_segmented_coverage
      rw [if_pos h16, if_pos hN,
        segCovLoop_finds d c Format.ManyToOneRangeMappings j hcont (u32At d 12) 0
          (by omega) (by omega) hskip',
        if_neg (by decide : ¬ Format.ManyToOneRangeMappings = Format.SegmentedCoverage)]
  · intro hnone fmt
    unfold parse_segmented_coverage
    rw [if_pos h16, if_pos hN]
    exact segCovLoop_none d c fmt (u32At d 12) 0
      (fun m _ hm2 => hskip m (hnone m (by omega)))

/-- C7 counterexample: a format-12 subtable with a single group
(startCharCode 0, endCharCode 0xFFFFFFFF, startGlyphId 7) and codepoint 5,
which lies inside the group's inclusive wire range.  The claim demands
some ((7 + (5 − 0)) mod 65536) = some 12, but the parser returns none:
the stored upper bound 0xFFFFFFFF + 1 wraps to 0. -/
theorem c7_counterexample :
    parse_segmented_coverage c7buf 5 Format.SegmentedCoverage = none ∧
    u32At c7buf 12 = 1 ∧
    u32At c7buf 16 = 0 ∧ u32At c7buf 20 = 4294967295 ∧ u32At c7buf 24 = 7 ∧
    (0 ≤ 5 ∧ 5 ≤ 4294967295) := by decide

/-- C7 witness: one group (0x1F600..0x1F64F, startGlyphId 200); codepoint
0x1F60A yields 210 under format 12 and 200 under format 13, and
codepoint 5, contained in no group, yields no match. -/
theorem c7_witness :
    parse_segmented_coverage c7wbuf 128522 Format.SegmentedCoverage = some 210 ∧
    parse_segmented_coverage c7wbuf 128522 Format.ManyToOneRangeMappings = some 200 ∧
    parse_segmented_coverage c7wbuf 5 Format.SegmentedCoverage = none := by
  have h := (c7_format12_13_group_match c7wbuf 128522 0 (by decide) (by decide)
    (by decide)).1 (by decide) (by decide) (by decide) (by decide) (by decide)
  have h2 := (c7_format12_13_group_match c7wbuf 5 0 (by decide) (by decide)
    (by decide)).2 (by decide) Format.SegmentedCoverage
  exact ⟨h.1.trans (by decide), h.2.trans (by decide), h2⟩

/-- C10: each format-12/13 group is stored as the half-open range
[startCharCode, endCharCode + 1) with the upper bound computed by
unchecked (wrapping) 32-bit addition, so in a subtable all of whose
groups have endCharCode = 0xFFFFFFFF the bound wraps to 0, the ranges are
empty and no codepoint matches any group — even codepoints inside the
inclusive wire ranges. -/
theorem c10_group_end_overflow (d : List Nat) (c : Nat) (fmt : Format)
    (hmax : ∀ k, k < u32At d 12 → u32At d (16 + 12 * k + 4) = 4294967295) :
    parse_segmented_coverage d c fmt = none := by
  unfold parse_segmented_coverage
  by_cases h16 : 16 ≤ d.length
  · rw [if_pos h16]
    by_cases hN : 16 + 12 * u32At d 12 ≤ d.length
    · rw [if_pos hN]
      apply segCovLoop_none d c fmt (u32At d 12) 0
      intro m _ hm2
      rw [hmax m (by omega)]
      intro hx
      omega
    · rw [if_neg hN]
  · rw [if_neg h16]

/-- C10 witness: a single group (startCharCode 3, endCharCode 0xFFFFFFFF,
startGlyphId 9); codepoint 7 lies inside the inclusive wire range yet
does not match. -/
theorem c10_witness :
    parse_segmented_coverage c10wbuf 7 Format.SegmentedCoverage = none :=
  c10_group_end_overflow c10wbuf 7 Format.SegmentedCoverage (by decide)

theorem parse0_none_high (d : List Nat) (c : Nat) (hbytes : ∀ b ∈ d, b < 256)
    (hc : 65535 < c) : parse_byte_encoding_table d c = none := by
  unfold parse_byte_encoding_table
  by_cases h4 : 4 ≤ d.length
  · rw [if_pos h4]
    have := u16At_lt d hbytes 2
    rw [if_neg (by omega)]
  · rw [if_neg h4]

theorem parse2_none_high (d : List Nat) (c : Nat) (hc : 65535 < c) :
    parse_high_byte_mapping_through_table d c = none := by
  unfold parse_high_byte_mapping_through_table
  rw [if_pos hc]

theorem parse4_none_high (d : List Nat) (c : Nat) (hc : 65535 < c) :
    parse_segment_mapping_to_delta_values d c = none := by
  unfold parse_segment_mapping_to_delta_values
  rw [if_pos hc]

theorem glyphIndexLoop_noGlyph_high (cmap : List Nat) (c : Nat)
    (hbc : ∀ b ∈ cmap, b < 256) (hc : 65535 < c) :
    ∀ k i, (∀ m, i ≤ m → m < i + k → 12 + 8 * m ≤ cmap.length →
      u32At cmap (8 + 8 * m) ≤ cmap.length ∧
      (u32At cmap (8 + 8 * m) + 2 ≤ cmap.length →
        u16At cmap (u32At cmap (8 + 8 * m)) = 0 ∨
        u16At cmap (u32At cmap (8 + 8 * m)) = 2 ∨
        u16At cmap (u32At cmap (8 + 8 * m)) = 4)) →
      glyphIndexLoop cmap c i k = CmapResult.noGlyph := by
  intro k
  induction k with
  | zero => intro i _; rfl
  | succ k ih =>
    intro i hrec
    have ihnext := ih (i + 1) (fun m hm1 hm2 => hrec m (by omega) (by omega))
    simp only [glyphIndexLoop]
    by_cases h12 : 12 + 8 * i ≤ cmap.length
    · rw [if_pos h12]
      obtain ⟨ho, hfmt⟩ := hrec i le_rfl (by omega) h12
      rw [if_neg (by omega : ¬ cmap.length < u32At cmap (8 + 8 * i))]
      by_cases h2 : 2 ≤ (cmap.drop (u32At cmap (8 + 8 * i))).length
      · rw [if_pos h2]
        have hdrop : u16At (cmap.drop (u32At cmap (8 + 8 * i))) 0 =
            u16At cmap (u32At cmap (8 + 8 * i)) :=
          (u16At_drop cmap (u32At cmap (8 + 8 * i)) 0).trans (by rw [Nat.add_zero])
        have hlen2 : u32At cmap (8 + 8 * i) + 2 ≤ cmap.length := by
          rw [List.length_drop] at h2; omega
        have hbsub : ∀ b ∈ cmap.drop (u32At cmap (8 + 8 * i)), b < 256 :=
          fun b hb => hbc b (List.drop_subset _ cmap hb)
        rw [hdrop]
        rcases hfmt hlen2 with h | h | h
        · rw [h, show parse_format 0 = some Format.ByteEncodingTable from rfl,
            parse0_none_high _ c hbsub hc]
          exact ihnext
        · rw [h, show parse_format 2 = some Format.HighByteMappingThroughTable from rfl,
            parse2_none_high _ c hc]
          exact ihnext
        · rw [h, show parse_format 4 = some Format.SegmentMappingToDeltaValues from rfl,
            parse4_none_high _ c hc]
          exact ihnext
      · rw [if_neg h2]
        exact ihnext
    · rw [if_neg h12]
      exact ihnext

/-- C9: every codepoint above 0xFFFF is rejected by the format-0, format-2
and format-4 parsers, and a cmap whose encoding records point only at
subtables of formats 0, 2 or 4 (at in-bounds offsets) resolves every such
codepoint to NoGlyph. -/
theorem c9_codepoint_above_ffff (d cmap : List Nat) (c : Nat)
    (hbd : ∀ b ∈ d, b < 256) (hbc : ∀ b ∈ cmap, b < 256)
    (hc : 65535 < c)
    (hrec : ∀ i, i < u16At cmap 2 → 12 + 8 * i ≤ cmap.length →
      u32At cmap (8 + 8 * i) ≤ cmap.length ∧
      (u32At cmap (8 + 8 * i) + 2 ≤ cmap.length →
        u16At cmap (u32At cmap (8 + 8 * i)) = 0 ∨
        u16At cmap (u32At cmap (8 + 8 * i)) = 2 ∨
        u16At cmap (u32At cmap (8 + 8 * i)) = 4)) :
    parse_byte_encoding_table d c = none ∧
    parse_high_byte_mapping_through_table d c = none ∧
    parse_segment_mapping_to_delta_values d c = none ∧
    glyph_index cmap c = CmapResult.noGlyph := by
  refine ⟨parse0_none_high d c hbd hc, parse2_none_high d c hc,
    parse4_none_high d c hc, ?_⟩
  unfold glyph_index
  by_cases h4 : 4 ≤ cmap.length
  · rw [if_pos h4]
    exact glyphIndexLoop_noGlyph_high cmap c hbc hc (u16At cmap 2) 0
      (fun m _ hm2 => hrec m (by omega))
  · rw [if_neg h4]

/-- C9 witness: a cmap with a single format-0 subtable, queried at
codepoint 0x10000. -/
theorem c9_witness :
    parse_byte_encoding_table c9wbuf 65536 = none ∧
    parse_high_byte_mapping_through_table c9wbuf 65536 = none ∧
    parse_segment_mapping_to_delta_values c9wbuf 65536 = none ∧
    glyph_index c9wbuf 65536 = CmapResult.noGlyph :=
  c9_codepoint_above_ffff c9wbuf c9wbuf 65536 (by decide) (by decide)
    (by decide) (by decide)

theorem vsRecSearchF_absent (d : List Nat) (v n : Nat)
    (habs : ∀ i, i < n → u24At d (10 + 11 * i) ≠ v) :
    ∀ fuel s e, e ≤ n → vsRecSearchF d v fuel s e = none := by
  intro fuel
  induction fuel with
  | zero => intro s e _; rfl
  | succ fuel ih =>
    intro s e hen
    simp only [vsRecSearchF]
    by_cases h : s < e
    · rw [if_pos h]
      have hne := habs ((s + e) / 2) (by omega)
      by_cases h1 : u24At d (10 + 11 * ((s + e) / 2)) < v
      · rw [if_pos h1]
        exact ih _ _ hen
      · rw [if_neg h1, if_pos (by omega)]
        exact ih _ _ (by omega)
    · rw [if_neg h]

theorem glyphVariationLoop_skip (cmap : List Nat) (c v : Nat) :
    ∀ k i, (∀ m, i ≤ m → m < i + k → 12 + 8 * m ≤ cmap.length →
      u32At cmap (8 + 8 * m) ≤ cmap.length ∧
      (u32At cmap (8 + 8 * m) + 2 ≤ cmap.length →
        parse_format (u16At cmap (u32At cmap (8 + 8 * m))) ≠
          some Format.UnicodeVariationSequences)) →
      glyphVariationLoop cmap c v i k = CmapResult.noGlyph := by
  intro k
  induction k with
  | zero => intro i _; rfl
  | succ k ih =>
    intro i hrec
    have ihnext := ih (i + 1) (fun m hm1 hm2 => hrec m (by omega) (by omega))
    simp only [glyphVariationLoop]
    by_cases h12 : 12 + 8 * i ≤ cmap.length
    · rw [if_pos h12]
      obtain ⟨ho, hfmt⟩ := hrec i le_rfl (by omega) h12
      rw [if_neg (by omega : ¬ cmap.length < u32At cmap (8 + 8 * i))]
      by_cases h2 : 2 ≤ (cmap.drop (u32At cmap (8 + 8 * i))).length
      · rw [if_pos h2]
        have hdrop : u16At (cmap.drop (u32At cmap (8 + 8 * i))) 0 =
            u16At cmap (u32At cmap (8 + 8 * i)) :=
          (u16At_drop cmap (u32At cmap (8 + 8 * i)) 0).trans (by rw [Nat.add_zero])
        have hlen2 : u32At cmap (8 + 8 * i) + 2 ≤ cmap.length := by
          rw [List.length_drop] at h2; omega
        rw [hdrop]
        have hne := hfmt hlen2
        rcases hpf : parse_format (u16At cmap (u32At cmap (8 + 8 * i))) with _ | f
        · exact ihnext
        · rw [hpf] at hne
          cases f <;> first | exact ihnext | exact absurd rfl hne
      · rw [if_neg h2]
        exact ihnext
    · rw [if_neg h12]
      exact ihnext

theorem glyphVariationLoop_first14 (cmap : List Nat) (c v t : Nat)
    (h12t : 12 + 8 * t ≤ cmap.length)
    (hot : u32At cmap (8 + 8 * t) ≤ cmap.length)
    (h2t : u32At cmap (8 + 8 * t) + 2 ≤ cmap.length)
    (hft : parse_format (u16At cmap (u32At cmap (8 + 8 * t))) =
      some Format.UnicodeVariationSequences) :
    ∀ k i, i ≤ t → t < i + k →
      (∀ m, i ≤ m → m < t → 12 + 8 * m ≤ cmap.length →
        u32At cmap (8 + 8 * m) ≤ cmap.length ∧
        (u32At cmap (8 + 8 * m) + 2 ≤ cmap.length →
          parse_format (u16At cmap (u32At cmap (8 + 8 * m))) ≠
            some Format.UnicodeVariationSequences)) →
      glyphVariationLoop cmap c v i k =
        parse_unicode_variation_sequences cmap
          (cmap.drop (u32At cmap (8 + 8 * t))) c v := by
  intro k
  induction k with
  | zero => intro i h1 h2 _; omega
  | succ k ih =>
    intro i hit hti hrec
    simp only [glyphVariationLoop]
    rcases Nat.lt_or_ge i t with hlt | hge
    · have ihnext := ih (i + 1) (by omega) (by omega)
        (fun m hm1 hm2 => hrec m (by omega) hm2)
      by_cases h12 : 12 + 8 * i ≤ cmap.length
      · rw [if_pos h12]
        obtain ⟨ho, hfmt⟩ := hrec i le_rfl hlt h12
        rw [if_neg (by omega : ¬ cmap.length < u32At cmap (8 + 8 * i))]
        by_cases h2 : 2 ≤ (cmap.drop (u32At cmap (8 + 8 * i))).length
        · rw [if_pos h2]
          have hdrop : u16At (cmap.drop (u32At cmap (8 + 8 * i))) 0 =
              u16At cmap (u32At cmap (8 + 8 * i)) :=
            (u16At_drop cmap (u32At cmap (8 + 8 * i)) 0).trans (by rw [Nat.add_zero])
          have hlen2 : u32At cmap (8 + 8 * i) + 2 ≤ cmap.length := by
            rw [List.length_drop] at h2; omega
          rw [hdrop]
          have hne := hfmt hlen2
          rcases hpf : parse_format (u16At cmap (u32At cmap (8 + 8 * i))) with _ | f
          · exact ihnext
          · rw [hpf] at hne
            cases f <;> first | exact ihnext | exact absurd rfl hne
        · rw [if_neg h2]
          exact ihnext
      · rw [if_neg h12]
        exact ihnext
    · have hti' : i = t := by omega
      subst hti'
      rw [if_pos h12t]
      rw [if_neg (by omega : ¬ cmap.length < u32At cmap (8 + 8 * i))]
      rw [if_pos (by rw [List.length_drop]; omega :
        2 ≤ (cmap.drop (u32At cmap (8 + 8 * i))).length)]
      have hdrop : u16At (cmap.drop (u32At cmap (8 + 8 * i))) 0 =
          u16At cmap (u32At cmap (8 + 8 * i)) :=
        (u16At_drop cmap (u32At cmap (8 + 8 * i)) 0).trans (by rw [Nat.add_zero])
      rw [hdrop, hft]

/-- C8: glyph_variation_index is decided entirely by the first format-14
subtable in directory order: (a) when no record points at a format-14
subtable (offsets in bounds so the walk does not fault) the result is
NoGlyph; (b) when record `t` is the first whose subtable has format 14,
the result is exactly what the format-14 subtable at record `t` yields;
(c) a selector absent from the variation-selector records of a format-14
subtable yields NoGlyph. -/
theorem c8_variation_first_format14 (cmap : List Nat) (c v t : Nat) :
    ((∀ m, m < u16At cmap 2 → 12 + 8 * m ≤ cmap.length →
        u32At cmap (8 + 8 * m) ≤ cmap.length ∧
        (u32At cmap (8 + 8 * m) + 2 ≤ cmap.length →
          parse_format (u16At cmap (u32At cmap (8 + 8 * m))) ≠
            some Format.UnicodeVariationSequences)) →
      glyph_variation_index cmap c v = CmapResult.noGlyph) ∧
    (t < u16At cmap 2 →
     12 + 8 * t ≤ cmap.length →
     u32At cmap (8 + 8 * t) ≤ cmap.length →
     u32At cmap (8 + 8 * t) + 2 ≤ cmap.length →
     parse_format (u16At cmap (u32At cmap (8 + 8 * t))) =
       some Format.UnicodeVariationSequences →
     (∀ m, m < t → 12 + 8 * m ≤ cmap.length →
        u32At cmap (8 + 8 * m) ≤ cmap.length ∧
        (u32At cmap (8 + 8 * m) + 2 ≤ cmap.length →
          parse_format (u16At cmap (u32At cmap (8 + 8 * m))) ≠
            some Format.UnicodeVariationSequences)) →
      glyph_variation_index cmap c v =
        parse_unicode_variation_sequences cmap
          (cmap.drop (u32At cmap (8 + 8 * t))) c v) ∧
    (∀ data : List Nat,
      (∀ i, i < u32At data 6 → u24At data (10 + 11 * i) ≠ v) →
      parse_unicode_variation_sequences cmap data c v = CmapResult.noGlyph) := by
  refine ⟨?parta, ?partb, ?partc⟩
  case parta =>
    intro hrec
    unfold glyph_variation_index
    by_cases h4 : 4 ≤ cmap.length
    · rw [if_pos h4]
      exact glyphVariationLoop_skip cmap c v (u16At cmap 2) 0
        (fun m _ hm2 => hrec m (by omega))
    · rw [if_neg h4]
  case partb =>
    intro ht h12t hot h2t hft hrec
    unfold glyph_variation_index
    rw [if_pos (by omega : 4 ≤ cmap.length)]
    exact glyphVariationLoop_first14 cmap c v t h12t hot h2t hft
      (u16At cmap 2) 0 (by omega) (by omega) (fun m hm1 hm2 => hrec m hm2)
  case partc =>
    intro data habs
    unfold parse_unicode_variation_sequences
    by_cases h10 : 10 ≤ data.length
    · rw [if_pos h10]
      by_cases hN : 10 + 11 * u32At data 6 ≤ data.length
      · rw [if_pos hN]
        unfold vsRecSearch
        rw [vsRecSearchF_absent data v (u32At data 6) habs
          (u32At data 6 - 0) 0 (u32At data 6) le_rfl]
      · rw [if_neg hN]
    · rw [if_neg h10]

/-- C8 witness: (a) a cmap whose only subtable has format 4 yields
NoGlyph; (b) a cmap whose first record points at a format-14 subtable is
decided by that subtable; (c) a format-14 subtable with zero
variation-selector records yields NoGlyph for any selector. -/
theorem c8_witness :
    glyph_variation_index c8abuf 65 65024 = CmapResult.noGlyph ∧
    glyph_variation_index c8bbuf 65 65024 =
      parse_unicode_variation_sequences c8bbuf
        (c8bbuf.drop (u32At c8bbuf (8 + 8 * 0))) 65 65024 ∧
    parse_unicode_variation_sequences c8abuf c8cbuf 65 65024 =
      CmapResult.noGlyph := by
  refine ⟨(c8_variation_first_format14 c8abuf 65 65024 0).1 (by decide),
    (c8_variation_first_format14 c8bbuf 65 65024 0).2.1 (by decide) (by decide)
      (by decide) (by decide) (by decide) (by decide),
    (c8_variation_first_format14 c8abuf 65 65024 0).2.2 c8cbuf (by decide)⟩

/-- C1 (code bug): `UnicodeRangeRecord::contains` is inverted
(`start >= c && c < start + count` instead of the inclusive-range test),
so in a font whose first format-14 subtable has selector 0xFE00 with the
default-UVS range U+0030..U+0039 (start 48, additional_count 9) and whose
format-0 subtable maps U+0035 to glyph 42, the query (U+0035, 0xFE00)
must per the claim tail-call glyph_index and return 42, but the code
skips the default-UVS range and returns NoGlyph. -/
theorem c1_default_uvs_contains_inverted :
    UnicodeRangeRecord.contains ⟨48, 9⟩ 53 = false ∧
    (48 ≤ 53 ∧ 53 ≤ 48 + 9) ∧
    glyph_variation_index c1buf 53 65024 = CmapResult.noGlyph ∧
    glyph_index c1buf 53 = CmapResult.ok 42 := by decide

/-- C2 (code bug): `glyph_index` returns `Ok(GlyphId(id))` for any
`Some(id)` from a format parser without checking `id ≠ 0`: a format-0
subtable whose glyph byte for codepoint 0 is 0 makes `glyph_index`
return glyph id 0, contradicting its own doc comment ("Returns
`Error::NoGlyph` instead of `0`") and the dispatch rule of the spec. -/
theorem c2_zero_glyph_id_returned :
    glyph_index c2buf 0 = CmapResult.ok 0 := by decide

/-- C3 (code bug): the slice expression `&cmap_data[offset..]` panics
when an encoding record's 32-bit subtable offset (here 256) exceeds the
buffer length (here 12), in both `glyph_index` and
`glyph_variation_index`, instead of merely failing to match that
subtable. -/
theorem c3_out_of_range_offset_faults :
    c3buf.length = 12 ∧ u32At c3buf 8 = 256 ∧
    glyph_index c3buf 65 = CmapResult.fault ∧
    glyph_variation_index c3buf 65 65024 = CmapResult.fault := by decide
